import Mathlib

/-!
Verification of the REST transcoding core of the gapic generator
(`internal/gengapic/genrest.go`): shallow embedding of the schema data
model, the HTTP-binding extractor, the path/query parameter classifiers,
the leaf-field resolver, the query-string synthesizer, and the
RPC-shape classifier and per-shape call synthesizers, together with
theorems settling the frozen claims about them.
-/

namespace Gapic

/-- Protobuf field types, mirroring `descriptor.FieldDescriptorProto_Type`. -/
inductive FieldType
  | double | float | int64 | uint64 | int32 | fixed64 | fixed32
  | bool | string | group | message | bytes | uint32 | enum
  | sfixed32 | sfixed64 | sint32 | sint64
deriving DecidableEq, Repr

/-- Protobuf field labels, mirroring `descriptor.FieldDescriptorProto_Label`. -/
inductive FieldLabel
  | optional | required | repeated
deriving DecidableEq, Repr

/-- A field descriptor (`descriptor.FieldDescriptorProto`).  The `id`
component models Go pointer identity of the descriptor: the source
compares descriptors by pointer (`field == f`), and two structurally
identical descriptors at different addresses are distinct. -/
structure Field where
  id : Nat
  name : String
  typ : FieldType
  typeName : String := ""
  label : FieldLabel := FieldLabel.optional
  proto3Optional : Bool := false
  behaviorRequired : Bool := false
deriving DecidableEq, Repr

/-- A message descriptor (`descriptor.DescriptorProto`): simple name and
ordered field list. -/
structure Message where
  name : String
  fields : List Field
deriving DecidableEq, Repr

/-- The schema accessor `g.descInfo.Type`, an associative lookup from
fully qualified type name to message descriptor. -/
abbrev TypeEnv := List (String × Message)

/-- Lookup in the schema accessor (`g.descInfo.Type[name]`). -/
def typeLookup (env : TypeEnv) (n : String) : Option Message :=
  (env.find? (fun p => p.1 == n)).map (fun p => p.2)

/-- Modelled from the spec: the "required" flag of §4.4 item 1
(the `google.api.field_behavior = REQUIRED` check performed by the
helper `isRequired`, which is declared outside the embedded file). -/
def isRequired (f : Field) : Bool := f.behaviorRequired

/-- Modelled from the spec: the well-known empty marker output type
(the constant `emptyType` declared outside the embedded file). -/
def emptyType : String := ".google.protobuf.Empty"

/-- One HTTP rule pattern (`annotations.HttpRule_Get` and friends). -/
inductive HttpPattern
  | get (url : String)
  | post (url : String)
  | patch (url : String)
  | put (url : String)
  | del (url : String)
deriving DecidableEq, Repr

/-- The HTTP rule carried by a method's options (`annotations.HttpRule`). -/
structure HttpRule where
  pattern : Option HttpPattern := none
  body : String := ""
deriving DecidableEq, Repr

/-- Method options (`descriptor.MethodOptions`); the HTTP extension may
be absent even when options are present. -/
structure MethodOpts where
  http : Option HttpRule := none
deriving DecidableEq, Repr

/-- Outcome of `g.getPagingFields(m)`: an error, no pagination, or the
(element field, page-size field) pair. -/
inductive PagingOutcome
  | err (e : String)
  | notPaged
  | paged (elemField pageSize : Field)
deriving DecidableEq, Repr

/-- A method descriptor (`descriptor.MethodDescriptorProto`) together
with the classification signals the dispatcher consumes.  `isLRO` and
`paging` model the helpers `g.isLRO` and `g.getPagingFields`, which are
declared outside the embedded file; the spec treats them as abstract
per-method signals (§6). -/
structure Method where
  name : String
  inputType : String
  outputType : String
  options : Option MethodOpts := none
  clientStreaming : Bool := false
  serverStreaming : Bool := false
  isLRO : Bool := false
  paging : PagingOutcome := PagingOutcome.notPaged
deriving DecidableEq, Repr

/-- The normalized triple produced by the HTTP binding extractor
(`httpInfo`). -/
structure HttpInfo where
  verb : String
  url : String
  body : String
deriving DecidableEq, Repr

/-- `getHTTPInfo`: returns `none` exactly when the method's options are
absent; otherwise extracts the verb/url from the pattern (leaving them
empty when no pattern is set, as `proto.GetExtension` yields a zero
`HttpRule` when the extension is absent) and the body selector. -/
def getHTTPInfo (m : Method) : Option HttpInfo :=
  match m.options with
  | none => none
  | some o =>
    let rule := o.http.getD {}
    match rule.pattern with
    | some (HttpPattern.get u) => some ⟨"get", u, rule.body⟩
    | some (HttpPattern.post u) => some ⟨"post", u, rule.body⟩
    | some (HttpPattern.patch u) => some ⟨"patch", u, rule.body⟩
    | some (HttpPattern.put u) => some ⟨"put", u, rule.body⟩
    | some (HttpPattern.del u) => some ⟨"delete", u, rule.body⟩
    | none => some ⟨"", "", rule.body⟩

/-- Scan for the next closing brace: splits `l` into the characters
before the first `\x7d` and the remainder after it, or `none` when no
closing brace exists.  This is the `[^\x7d]+` part of the regex
`\x7b([^\x7d]+)\x7d` used by `pathParams`. -/
def takeUntilRBrace : List Char → Option (List Char × List Char)
  | [] => none
  | c :: rest =>
    if c = '\x7d' then some ([], rest)
    else
      match takeUntilRBrace rest with
      | none => none
      | some (body, rem) => some (c :: body, rem)

theorem takeUntilRBrace_length {l body rem : List Char}
    (h : takeUntilRBrace l = some (body, rem)) : rem.length < l.length := by
  induction l generalizing body rem with
  | nil => simp [takeUntilRBrace] at h
  | cons c rest ih =>
    by_cases hc : c = '\x7d'
    · simp [takeUntilRBrace, hc] at h
      simp [h.2.symm]
    · simp only [takeUntilRBrace, if_neg hc] at h
      match hrec : takeUntilRBrace rest with
      | none => simp [hrec] at h
      | some (b, r) =>
        simp [hrec] at h
        have := ih hrec
        simp [← h.2, List.length_cons]
        omega

/-- Fueled scanner for all matches of `\x7b([^\x7d]+)\x7d`, returning
the captured groups in order (the behavior of
`re.FindAllStringSubmatch(url, -1)` projected to `p[1]`).  The fuel is
an upper bound on the number of characters consumed. -/
def findPH : Nat → List Char → List String
  | 0, _ => []
  | _, [] => []
  | fuel + 1, c :: rest =>
    if c = '\x7b' then
      match takeUntilRBrace rest with
      | some (body, rem) =>
        if body = [] then findPH fuel rest
        else String.mk body :: findPH fuel rem
      | none => findPH fuel rest
    else findPH fuel rest

/-- All `\x7bplaceholder\x7d` capture groups of a URL template, in
order. -/
def findPlaceholders (s : String) : List String :=
  findPH s.data.length s.data

/-- Go map assignment `m[k] = v` on an association list: replaces the
binding when the key is present, otherwise appends it. -/
def insertAssoc (l : List (String × Field)) (k : String) (v : Field) :
    List (String × Field) :=
  if l.any (fun p => p.1 == k) then
    l.map (fun p => if p.1 == k then (k, v) else p)
  else l ++ [(k, v)]

/-- `strings.Split(path, ".")`: the successive dot-separated segments
of a field path (the empty path yields one empty segment, as in Go). -/
def splitSegsAux : List Char → List Char → List String
  | [], cur => [String.mk cur.reverse]
  | c :: rest, cur =>
    if c = '.' then String.mk cur.reverse :: splitSegsAux rest []
    else splitSegsAux rest (c :: cur)

/-- Split a dotted field path into its segments. -/
def splitSegs (s : String) : List String := splitSegsAux s.data []

/-- `strings.ToUpper` on the ASCII verbs used here. -/
def toUpperStr (s : String) : String := String.mk (s.data.map Char.toUpper)

/-- Helper for `lookupField`: resolve the successive path segments
through the message graph. -/
def lookupFieldSegs (env : TypeEnv) : Message → List String → Option Field
  | _, [] => none
  | msg, [s] => msg.fields.find? (fun f => f.name == s)
  | msg, s :: rest =>
    match msg.fields.find? (fun f => f.name == s) with
    | none => none
    | some f =>
      if f.typ = FieldType.message then
        match typeLookup env f.typeName with
        | none => none
        | some sub => lookupFieldSegs env sub rest
      else none

/-- Modelled from the spec: the helper `g.lookupField(msgName, field)`
(declared outside the embedded file), which resolves a dotted field
path, starting from the fully qualified message name, to the field
descriptor it denotes (§4.3: placeholders are resolved through the
input message to their terminal field; §3: lookup is by fully
qualified name).  Returns `none` when the message is unknown or any
segment fails to resolve. -/
def lookupField (env : TypeEnv) (msgName : String) (path : String) :
    Option Field :=
  match typeLookup env msgName with
  | none => none
  | some msg => lookupFieldSegs env msg (splitSegs path)

/-- `g.pathParams(m)`: the empty map when the method has no HTTP
information; otherwise, for each `\x7bplaceholder\x7d` capture of the
URL template in order, the placeholder is bound to the field of the
input message it resolves to, and placeholders that do not resolve are
skipped (the `continue` branch). -/
def pathParamsM (env : TypeEnv) (m : Method) : List (String × Field) :=
  match getHTTPInfo m with
  | none => []
  | some info =>
    (findPlaceholders info.url).foldl
      (fun acc param =>
        match lookupField env m.inputType param with
        | none => acc
        | some field => insertAssoc acc param field) []

/-- The dotted path key built by `handleLeaf`: the names of the fields
on the stack joined with the leaf field's own name. -/
def leafKey (stack : List Field) (f : Field) : String :=
  String.intercalate "." ((stack.map (fun g => g.name)) ++ [f.name])

/-- One level of the recursive walk of `g.getLeafs` (the `recurse`
closure) over the field list of the current message, with `descend`
performing the walk of a sub-message one level deeper.  For each
field: a non-message field is recorded at its dotted path
(`handleLeaf`); a message field is skipped when repeated, when in the
exclusion set, or when already on the current path-from-root stack
(`handleMsg`), and otherwise descended into after looking up its type
(`none` models the Go panic on a failed type assertion, and fuel
exhaustion inside `descend`). -/
def getLeafsStep (env : TypeEnv) (excluded : List Field)
    (descend : List Field → Message → List (String × Field) →
      Option (List (String × Field))) :
    List Field → List Field → List (String × Field) →
    Option (List (String × Field))
  | _, [], acc => some acc
  | stack, f :: rest, acc =>
    if f.typ = FieldType.message then
      if f.label = FieldLabel.repeated then
        getLeafsStep env excluded descend stack rest acc
      else if excluded.contains f then
        getLeafsStep env excluded descend stack rest acc
      else if stack.contains f then
        getLeafsStep env excluded descend stack rest acc
      else
        match typeLookup env f.typeName with
        | none => none
        | some sub =>
          match descend (stack ++ [f]) sub acc with
          | none => none
          | some acc' => getLeafsStep env excluded descend stack rest acc'
    else
      getLeafsStep env excluded descend stack rest
        (insertAssoc acc (leafKey stack f) f)

/-- The fueled walk of `g.getLeafs` from one message: one unit of fuel
per nesting level.  `none` models fuel exhaustion (ruled out by the
termination theorem at the bound used by `getLeafsM`) or a panic
inside the level. -/
def getLeafsD (env : TypeEnv) (excluded : List Field) :
    Nat → List Field → Message → List (String × Field) →
    Option (List (String × Field))
  | 0, _, _, _ => none
  | fuel + 1, stack, msg, acc =>
    getLeafsStep env excluded
      (fun stack2 sub acc2 => getLeafsD env excluded fuel stack2 sub acc2)
      stack msg.fields acc

/-- All fields stored in the schema accessor. -/
def allEnvFields (env : TypeEnv) : List Field :=
  env.foldr (fun p acc => p.2.fields ++ acc) []

/-- The pool of field descriptors the walk of `msg` can ever push on
its stack: the root's own fields plus every field of every message in
the schema. -/
def fieldPool (env : TypeEnv) (msg : Message) : List Field :=
  msg.fields ++ allEnvFields env

/-- `g.getLeafs(msg, excludedFields...)`, run with enough fuel for any
walk whose stack stays within the field pool (the termination theorem
shows this bound suffices). -/
def getLeafsM (env : TypeEnv) (msg : Message) (excluded : List Field) :
    Option (List (String × Field)) :=
  getLeafsD env excluded ((fieldPool env msg).length + 1) [] msg []

/-- `g.queryParams(m)`: the empty map when the method has no HTTP
information or the body selector is `*`; otherwise the leaf fields of
the input message (computed with the body field force-excluded) whose
path is neither a path-parameter key nor the body selector path and
whose simple name does not resolve directly on the request root's
simple name.  `none` models the Go panic when the input type is not in
the schema accessor (the failed type assertion) or the walk itself
panics. -/
def queryParamsM (env : TypeEnv) (m : Method) :
    Option (List (String × Field)) :=
  match getHTTPInfo m with
  | none => some []
  | some info =>
    if info.body = "*" then some []
    else
      let pathKeys := (pathParamsM env m).map (fun p => p.1) ++ [info.body]
      match typeLookup env m.inputType with
      | none => none
      | some request =>
        let excluded := (lookupField env m.inputType info.body).toList
        match getLeafsM env request excluded with
        | none => none
        | some leaves =>
          some (leaves.filter (fun pf =>
            !(pathKeys.contains pf.1) &&
              (lookupField env request.name pf.2.name).isNone))

/-- The guard the query-string synthesizer emits around one
`params.Add` call.  Each constructor names the generated condition:
`unconditional` is no guard at all; `sliceNonNil` is
`if req.X != nil` for a repeated field; `presence` is
`if req.Parent != nil && req.RawX != nil` for a proto3-optional field;
`msgNonNil` is `if req.X != nil` for message/bytes; `strNonEmpty` is
`if req.X != ""`; `boolTruthy` is `if req.X`; `numNonZero` is
`if req.X != 0` for the remaining numeric and enum types. -/
inductive QueryGuard
  | unconditional
  | sliceNonNil
  | presence
  | msgNonNil
  | strNonEmpty
  | boolTruthy
  | numNonZero
deriving DecidableEq, Repr

/-- The guard `generateQueryString` chooses for one query-parameter
field, following the source's branch structure. -/
def guardFor (f : Field) : QueryGuard :=
  let required := isRequired f
  let singularPrimitive :=
    f.typ ≠ FieldType.message ∧ f.typ ≠ FieldType.bytes ∧
      f.label ≠ FieldLabel.repeated
  if required ∧ singularPrimitive then QueryGuard.unconditional
  else if f.label = FieldLabel.repeated then QueryGuard.sliceNonNil
  else if f.proto3Optional then QueryGuard.presence
  else
    match f.typ with
    | FieldType.message => QueryGuard.msgNonNil
    | FieldType.bytes => QueryGuard.msgNonNil
    | FieldType.string => QueryGuard.strNonEmpty
    | FieldType.bool => QueryGuard.boolTruthy
    | _ => QueryGuard.numNonZero

/-- A zero `descriptor.FieldDescriptorProto` (what a Go map read yields
for an absent key; never reached because every sorted key is a key of
the map). -/
def defaultField : Field :=
  { id := 0, name := "", typ := FieldType.double }

/-- Lexicographic comparison of character lists by code point, the
order `sort.Strings` sorts by. -/
def charListLe : List Char → List Char → Bool
  | [], _ => true
  | _ :: _, [] => false
  | a :: as, b :: bs =>
    if a.toNat < b.toNat then true
    else if b.toNat < a.toNat then false
    else charListLe as bs

/-- Lexicographic order on strings (the order of `sort.Strings`). -/
def strLe (a b : String) : Bool := charListLe a.data b.data

/-- `strLe` as a relation. -/
def strLeR (a b : String) : Prop := strLe a b = true

instance : DecidableRel strLeR := fun a b => by
  unfold strLeR
  infer_instance

theorem charListLe_total (as bs : List Char) :
    charListLe as bs = true ∨ charListLe bs as = true := by
  induction as generalizing bs with
  | nil => left; rfl
  | cons a as ih =>
    cases bs with
    | nil => right; rfl
    | cons b bs =>
      rcases Nat.lt_trichotomy a.toNat b.toNat with h | h | h
      · left; simp [charListLe, h]
      · rcases ih bs with h2 | h2
        · left; simp [charListLe, h, h2]
        · right; simp [charListLe, h.symm, h2]
      · right; simp [charListLe, h]

theorem charListLe_trans (as bs cs : List Char)
    (h1 : charListLe as bs = true) (h2 : charListLe bs cs = true) :
    charListLe as cs = true := by
  induction as generalizing bs cs with
  | nil => rfl
  | cons a as ih =>
    cases bs with
    | nil => simp [charListLe] at h1
    | cons b bs =>
      cases cs with
      | nil => simp [charListLe] at h2
      | cons c cs =>
        simp only [charListLe] at h1 h2 ⊢
        by_cases hab : a.toNat < b.toNat <;>
          by_cases hbc : b.toNat < c.toNat <;>
            by_cases hba : b.toNat < a.toNat <;>
              by_cases hcb : c.toNat < b.toNat <;>
                simp_all <;>
                  first
                  | omega
                  | (have hac : ¬ a.toNat < c.toNat := by omega
                     have hca : ¬ c.toNat < a.toNat := by omega
                     simp [hac, hca]
                     exact ⟨by omega, ih bs cs h1 h2⟩)

instance : IsTotal String strLeR :=
  ⟨fun a b => charListLe_total a.data b.data⟩

instance : IsTrans String strLeR :=
  ⟨fun a b c => charListLe_trans a.data b.data c.data⟩

/-- `sort.Strings`, modelled as insertion sort under the lexicographic
order on strings; both are sorted permutations of a list of distinct
keys, hence equal. -/
def sortStrings (l : List String) : List String :=
  l.insertionSort strLeR

/-- `g.generateQueryString(m)`, projected to the sequence of
(path, guard) pairs it emits: nothing when there are no query
parameters, otherwise one pair per parameter in sorted key order. -/
def generateQueryStringM (env : TypeEnv) (m : Method) :
    Option (List (String × QueryGuard)) :=
  match queryParamsM env m with
  | none => none
  | some qp =>
    if qp.length = 0 then some []
    else
      let fields := sortStrings (qp.map (fun p => p.1))
      some (fields.map (fun path =>
        (path, guardFor (((qp.find? (fun p => p.1 == path)).map
          (fun p => p.2)).getD defaultField))))

/-- One element of the synthesized call body that the claims are
about: body marshaling, URL construction, one query-parameter
addition, the transport round trip, the streaming stub's unconditional
`return nil, fmt.Errorf("... not yet supported for REST clients")`,
and response decoding. -/
inductive Stmt
  | bodyMarshal (selector : String)
  | urlBuild (urlTemplate : String)
  | queryAdd (path : String) (guard : QueryGuard)
  | httpCall (verb : String) (hasBody : Bool)
  | returnUnsupported (methodName : String)
  | respDecode (outType : String)
deriving DecidableEq, Repr

/-- A synthesized client method: its name, whether its signature takes
the request message (client-streaming methods do not), and the body
statements. -/
structure EmittedFunc where
  methodName : String
  takesRequest : Bool
  stmts : List Stmt
deriving DecidableEq, Repr

deriving instance DecidableEq for Except

/-- `g.generateURLString(m)`: an error naming the method when HTTP
information is absent, otherwise the URL-building statement. -/
def generateURLStringM (m : Method) : Except String Stmt :=
  match getHTTPInfo m with
  | none => Except.error ("method has no http info: " ++ m.name)
  | some info => Except.ok (Stmt.urlBuild info.url)

/-- `g.unaryRESTCall`: fails when HTTP information is absent, when a
type lookup fails, or when a non-empty body selector meets a GET or
DELETE verb; otherwise emits body marshaling (when a body selector is
present), the URL build, the sorted query additions, the transport
round trip and the response decode.  A `none` from the query-string
synthesis (a Go panic) is surfaced as an error here for totality. -/
def unaryRESTCallM (env : TypeEnv) (m : Method) : Except String EmittedFunc :=
  match getHTTPInfo m with
  | none => Except.error ("method has no http info: " ++ m.name)
  | some info =>
    match typeLookup env m.inputType, typeLookup env m.outputType with
    | some _, some _ =>
      let verb := toUpperStr info.verb
      if info.body ≠ "" ∧ (verb = "GET" ∨ verb = "DELETE") then
        Except.error
          ("invalid use of body parameter for a get/delete method \"" ++
            m.name ++ "\"")
      else
        let bodyStmts :=
          if info.body ≠ "" then [Stmt.bodyMarshal info.body] else []
        match generateQueryStringM env m with
        | none => Except.error ("panic: unknown type: " ++ m.inputType)
        | some qs =>
          Except.ok
            { methodName := m.name
              takesRequest := true
              stmts := bodyStmts ++ [Stmt.urlBuild info.url] ++
                qs.map (fun pg => Stmt.queryAdd pg.1 pg.2) ++
                [Stmt.httpCall verb (info.body != "")] ++
                [Stmt.respDecode m.outputType] }
    | _, _ => Except.error ("unknown type: " ++ m.inputType)

/-- `g.emptyUnaryRESTCall`: like the unary synthesizer (including the
GET/DELETE body rejection) but with no response decoding. -/
def emptyUnaryRESTCallM (env : TypeEnv) (m : Method) :
    Except String EmittedFunc :=
  match getHTTPInfo m with
  | none => Except.error ("method has no http info: " ++ m.name)
  | some info =>
    match typeLookup env m.inputType with
    | some _ =>
      let verb := toUpperStr info.verb
      if info.body ≠ "" ∧ (verb = "GET" ∨ verb = "DELETE") then
        Except.error
          ("invalid use of body parameter for a get/delete method \"" ++
            m.name ++ "\"")
      else
        let bodyStmts :=
          if info.body ≠ "" then [Stmt.bodyMarshal info.body] else []
        match generateQueryStringM env m with
        | none => Except.error ("panic: unknown type: " ++ m.inputType)
        | some qs =>
          Except.ok
            { methodName := m.name
              takesRequest := true
              stmts := bodyStmts ++ [Stmt.urlBuild info.url] ++
                qs.map (fun pg => Stmt.queryAdd pg.1 pg.2) ++
                [Stmt.httpCall verb (info.body != "")] }
    | none => Except.error ("unknown type: " ++ m.inputType)

/-- `g.pagingRESTCall`: resolves the input/output types, requires HTTP
information, and then emits the page-fetch body — marshaling the body
whenever a body selector is present, with no check of the verb. -/
def pagingRESTCallM (env : TypeEnv) (m : Method) : Except String EmittedFunc :=
  match typeLookup env m.inputType, typeLookup env m.outputType with
  | some _, some _ =>
    match getHTTPInfo m with
    | none => Except.error ("method has no http info: " ++ m.name)
    | some info =>
      let verb := toUpperStr info.verb
      let bodyStmts :=
        if info.body ≠ "" then [Stmt.bodyMarshal info.body] else []
      match generateQueryStringM env m with
      | none => Except.error ("panic: unknown type: " ++ m.inputType)
      | some qs =>
        Except.ok
          { methodName := m.name
            takesRequest := true
            stmts := bodyStmts ++ [Stmt.urlBuild info.url] ++
              qs.map (fun pg => Stmt.queryAdd pg.1 pg.2) ++
              [Stmt.httpCall verb (info.body != "")] ++
              [Stmt.respDecode m.outputType] }
  | _, _ => Except.error ("unknown type: " ++ m.inputType)

/-- `g.lroRESTCall`: resolves the input type and emits the stub that
unconditionally returns the "not yet supported for REST clients"
error; no transport call, no body, no verb check. -/
def lroRESTCallM (env : TypeEnv) (m : Method) : Except String EmittedFunc :=
  match typeLookup env m.inputType with
  | some _ =>
    Except.ok
      { methodName := m.name
        takesRequest := true
        stmts := [Stmt.returnUnsupported m.name] }
  | none => Except.error ("unknown type: " ++ m.inputType)

/-- `g.serverStreamRESTCall`: resolves the input type for the
signature, then emits only the unconditional unsupported-transport
return. -/
def serverStreamRESTCallM (env : TypeEnv) (m : Method) :
    Except String EmittedFunc :=
  match typeLookup env m.inputType with
  | some _ =>
    Except.ok
      { methodName := m.name
        takesRequest := true
        stmts := [Stmt.returnUnsupported m.name] }
  | none => Except.error ("unknown type: " ++ m.inputType)

/-- `g.noRequestStreamRESTCall` (client streaming): the signature takes
no request message, and the body is only the unconditional
unsupported-transport return. -/
def noRequestStreamRESTCallM (_env : TypeEnv) (m : Method) :
    Except String EmittedFunc :=
  Except.ok
    { methodName := m.name
      takesRequest := false
      stmts := [Stmt.returnUnsupported m.name] }

/-- The six call shapes the dispatcher can select. -/
inductive CallShape
  | lro
  | emptyResponse
  | paginated
  | clientStream
  | serverStream
  | unary
deriving DecidableEq, Repr

/-- The shape-classification structure of `g.genRESTMethod`: the
guard sequence of the source (`isLRO`, then the empty output type,
then paging detection — whose failure aborts the method — then the
client- and server-streaming flags, then the unary default). -/
def genRESTMethodShape (m : Method) : Except String CallShape :=
  if m.isLRO then Except.ok CallShape.lro
  else if m.outputType = emptyType then Except.ok CallShape.emptyResponse
  else
    match m.paging with
    | PagingOutcome.err e => Except.error e
    | PagingOutcome.paged _ _ => Except.ok CallShape.paginated
    | PagingOutcome.notPaged =>
      if m.clientStreaming then Except.ok CallShape.clientStream
      else if m.serverStreaming then Except.ok CallShape.serverStream
      else Except.ok CallShape.unary

/-- `g.genRESTMethod`: dispatch to the per-shape synthesizer along the
same guard sequence as `genRESTMethodShape`. -/
def genRESTMethodM (env : TypeEnv) (m : Method) : Except String EmittedFunc :=
  if m.isLRO then lroRESTCallM env m
  else if m.outputType = emptyType then emptyUnaryRESTCallM env m
  else
    match m.paging with
    | PagingOutcome.err e => Except.error e
    | PagingOutcome.paged _ _ => pagingRESTCallM env m
    | PagingOutcome.notPaged =>
      if m.clientStreaming then noRequestStreamRESTCallM env m
      else if m.serverStreaming then serverStreamRESTCallM env m
      else unaryRESTCallM env m

/-- Whether paging detection succeeded with a pagination pair. -/
def isPaginated (m : Method) : Bool :=
  match m.paging with
  | PagingOutcome.paged _ _ => true
  | _ => false

/-- The classification as the spec words it (§4.5): a fixed ordered
list of tests — long-running operation, empty response, paginated
listing, client streaming, server streaming — with first match
winning and plain unary as the default. -/
def specClassify (m : Method) : CallShape :=
  (([ (m.isLRO, CallShape.lro),
      (m.outputType == emptyType, CallShape.emptyResponse),
      (isPaginated m, CallShape.paginated),
      (m.clientStreaming, CallShape.clientStream),
      (m.serverStreaming, CallShape.serverStream) ].find?
        (fun t => t.1)).map (fun t => t.2)).getD CallShape.unary

/-- The query-guard policy exactly as the spec words it (§4.4), used to
compare against the source's `guardFor`: (1) required AND scalar/enum
(not message/bytes) AND singular, always included; (2) else repeated,
guarded on the collection; (3) else explicit optional presence,
guarded on presence; (4) else a type-appropriate zero-value check. -/
def specGuardPolicy (f : Field) : QueryGuard :=
  if isRequired f = true ∧ f.typ ≠ FieldType.message ∧
      f.typ ≠ FieldType.bytes ∧ f.label ≠ FieldLabel.repeated then
    QueryGuard.unconditional
  else if f.label = FieldLabel.repeated then QueryGuard.sliceNonNil
  else if f.proto3Optional = true then QueryGuard.presence
  else
    match f.typ with
    | FieldType.string => QueryGuard.strNonEmpty
    | FieldType.bool => QueryGuard.boolTruthy
    | FieldType.message => QueryGuard.msgNonNil
    | FieldType.bytes => QueryGuard.msgNonNil
    | _ => QueryGuard.numNonZero

theorem guardFor_eq_specGuardPolicy (f : Field) :
    guardFor f = specGuardPolicy f := by
  unfold guardFor specGuardPolicy
  by_cases h1 : f.typ = FieldType.message <;>
    by_cases h2 : f.typ = FieldType.bytes <;>
      by_cases h3 : f.label = FieldLabel.repeated <;>
        by_cases h4 : isRequired f = true <;>
          simp [h1, h2, h3, h4] <;>
            cases f.typ <;> simp_all

/-! ### Concrete schema fixtures, mirroring the repository's own tests
(`TestPathParams`, `TestQueryParams`, `TestLeafFields`,
`TestGenRestMethod`). -/

/-- A singular `int32` field, as `setupMethod` builds them. -/
def intField (id : Nat) (name : String) : Field :=
  { id := id, name := name, typ := FieldType.int32 }

def clamMass : Field := intField 10 "mass_kg"

def clamSalt : Field := { id := 11, name := "saltwater_p", typ := FieldType.bool }

def clamMsg : Message := ⟨"Clam", [clamMass, clamSalt]⟩

def colorCode : Field := intField 12 "color_code"

def chromMsg : Message := ⟨"Chromatophore", [colorCode]⟩

def mantleMass : Field := intField 13 "mass_kg"

def chromField : Field :=
  { id := 14, name := "chromatophore", typ := FieldType.message,
    typeName := ".animalia.mollusca.Chromatophore" }

def mantleMsg : Message := ⟨"Mantle", [mantleMass, chromField]⟩

def squidLen : Field := intField 15 "length_m"

def mantleField : Field :=
  { id := 16, name := "mantle", typ := FieldType.message,
    typeName := ".animalia.mollusca.Mantle" }

def squidMsg : Message := ⟨"Squid", [squidLen, mantleField]⟩

def whelkMass : Field := intField 17 "mass_kg"

def whelkField : Field :=
  { id := 18, name := "whelk", typ := FieldType.message,
    typeName := ".animalia.mollusca.Whelk" }

def whelkMsg : Message := ⟨"Whelk", [whelkMass, whelkField]⟩

def molluscaEnv : TypeEnv :=
  [ (".animalia.mollusca.Clam", clamMsg),
    (".animalia.mollusca.Chromatophore", chromMsg),
    (".animalia.mollusca.Mantle", mantleMsg),
    (".animalia.mollusca.Squid", squidMsg),
    (".animalia.mollusca.Whelk", whelkMsg) ]

/-- A diamond: message `D` reaches message `S` through two distinct
singular message fields. -/
def leafX : Field := intField 21 "x"

def sMsg : Message := ⟨"S", [leafX]⟩

def dA : Field :=
  { id := 22, name := "a", typ := FieldType.message, typeName := ".d.S" }

def dB : Field :=
  { id := 23, name := "b", typ := FieldType.message, typeName := ".d.S" }

def dMsg : Message := ⟨"D", [dA, dB]⟩

def diamondEnv : TypeEnv := [(".d.S", sMsg), (".d.D", dMsg)]

/-- Method options carrying one HTTP rule. -/
def mkHttpOpts (p : HttpPattern) (b : String) : Option MethodOpts :=
  some { http := some { pattern := some p, body := b } }

/-- The `IdentifyRequest` fixture of `TestPathParams`, case
`disjoint_fields_and_params`: fields `name` and `mass_kg`, URL
`/kingdom/\x7bkingdom\x7d`, no body. -/
def idName : Field := intField 1 "name"

def idMass : Field := intField 2 "mass_kg"

def identifyMsg : Message := ⟨"IdentifyRequest", [idName, idMass]⟩

def identifyEnv : TypeEnv := [(".identify.IdentifyRequest", identifyMsg)]

def identifyMethod : Method :=
  { name := "Identify"
    inputType := ".identify.IdentifyRequest"
    outputType := ".identify.IdentifyRequest"
    options := mkHttpOpts (HttpPattern.get "/kingdom/\x7bkingdom\x7d") "" }

/-- Fixture for the parameter partition: the request's single field
`foo` is a message whose subtree is selected as the body, while the
URL also binds the path parameter `\x7bfoo.bar\x7d` inside that same
subtree. -/
def subBar : Field := intField 30 "bar"

def subBaz : Field := intField 31 "baz"

def subMsg : Message := ⟨"Sub", [subBar, subBaz]⟩

def reqFoo : Field :=
  { id := 32, name := "foo", typ := FieldType.message, typeName := ".part.Sub" }

def reqMsg : Message := ⟨"Req", [reqFoo]⟩

def partitionEnv : TypeEnv := [(".part.Req", reqMsg), (".part.Sub", subMsg)]

def partitionMethod : Method :=
  { name := "Collide"
    inputType := ".part.Req"
    outputType := ".part.Req"
    options := mkHttpOpts (HttpPattern.post "/v1/\x7bfoo.bar\x7d") "foo" }

/-- The paginated fixture of `TestGenRestMethod`, with the HTTP rule
altered to carry verb GET together with body `*`. -/
def pageSizeF : Field := intField 40 "page_size"

def pageTokenF : Field := { id := 41, name := "page_token", typ := FieldType.string }

def pagedReqMsg : Message := ⟨"PagedFooRequest", [pageSizeF, pageTokenF]⟩

def fooSize : Field :=
  { id := 44, name := "size", typ := FieldType.int32, behaviorRequired := true }

def fooMsg : Message := ⟨"Foo", [fooSize]⟩

def foosF : Field :=
  { id := 42, name := "foos", typ := FieldType.message,
    typeName := ".google.cloud.foo.v1.Foo", label := FieldLabel.repeated }

def nextTokF : Field := { id := 43, name := "next_page_token", typ := FieldType.string }

def pagedResMsg : Message := ⟨"PagedFooResponse", [foosF, nextTokF]⟩

def fooEnv : TypeEnv :=
  [ (".google.cloud.foo.v1.PagedFooRequest", pagedReqMsg),
    (".google.cloud.foo.v1.PagedFooResponse", pagedResMsg),
    (".google.cloud.foo.v1.Foo", fooMsg) ]

def pagingBodyGetMethod : Method :=
  { name := "PagingRPC"
    inputType := ".google.cloud.foo.v1.PagedFooRequest"
    outputType := ".google.cloud.foo.v1.PagedFooResponse"
    options := mkHttpOpts (HttpPattern.get "/v1/foo") "*"
    paging := PagingOutcome.paged foosF pageSizeF }

/-- A method that satisfies both the pagination convention and the
server-streaming flag. -/
def pagedStreamMethod : Method :=
  { name := "GetManyThings"
    inputType := ".google.cloud.foo.v1.PagedFooRequest"
    outputType := ".google.cloud.foo.v1.PagedFooResponse"
    serverStreaming := true
    options := mkHttpOpts (HttpPattern.get "/v1/foo") ""
    paging := PagingOutcome.paged foosF pageSizeF }

/-- A server-streaming method for the stub synthesizer. -/
def bidiMethod : Method :=
  { name := "BidiThings"
    inputType := ".google.cloud.foo.v1.Foo"
    outputType := ".google.cloud.foo.v1.Foo"
    serverStreaming := true
    options := mkHttpOpts (HttpPattern.post "/v1/foo") "" }

/-- A method with no options at all (no HTTP transport information). -/
def bareMethod : Method :=
  { name := "Bare"
    inputType := ".identify.IdentifyRequest"
    outputType := ".identify.IdentifyRequest" }

/-! ### Helper lemmas about the association-list map operations and the
leaf walk. -/

theorem mem_insertAssoc {l : List (String × Field)} {k : String} {v : Field}
    {x : String × Field} (h : x ∈ insertAssoc l k v) : x ∈ l ∨ x = (k, v) := by
  unfold insertAssoc at h
  split at h
  · rcases List.mem_map.mp h with ⟨p, hp, he⟩
    by_cases hk : p.1 == k
    · right
      rw [if_pos hk] at he
      exact he.symm
    · left
      rw [if_neg hk] at he
      exact he ▸ hp
  · rcases List.mem_append.mp h with h | h
    · exact Or.inl h
    · right
      simpa using h

theorem keys_update (l : List (String × Field)) (k : String) (v : Field) :
    (l.map (fun p => if p.1 == k then (k, v) else p)).map Prod.fst =
      l.map Prod.fst := by
  induction l with
  | nil => rfl
  | cons p rest ih =>
    by_cases h : (p.1 == k) = true
    · have hk : p.1 = k := by simpa using h
      simp only [List.map_cons, if_pos h, ih]
      simp [hk]
    · have hk : ¬ p.1 = k := by simpa using h
      simp only [List.map_cons, if_neg h, ih]

theorem insertAssoc_keys_nodup {l : List (String × Field)} {k : String}
    {v : Field} (h : (l.map Prod.fst).Nodup) :
    ((insertAssoc l k v).map Prod.fst).Nodup := by
  unfold insertAssoc
  split
  case isTrue _ => rw [keys_update]; exact h
  case isFalse hany =>
    rw [List.map_append]
    rw [List.nodup_append]
    refine ⟨h, by simp, ?_⟩
    intro a ha
    simp only [List.map_cons, List.map_nil, List.mem_singleton]
    intro hak
    subst hak
    rcases List.mem_map.mp ha with ⟨p, hp, he⟩
    exact hany (List.any_eq_true.mpr ⟨p, hp, by simp [he]⟩)

theorem find?_eq_of_mem_of_nodup {l : List (String × Field)} {k : String}
    {v : Field} (hn : (l.map Prod.fst).Nodup) (hm : (k, v) ∈ l) :
    l.find? (fun p => p.1 == k) = some (k, v) := by
  induction l with
  | nil => simp at hm
  | cons p rest ih =>
    rcases List.mem_cons.mp hm with h | h
    · cases h
      simp [List.find?]
    · have hk : (p.1 == k) = false := by
        simp only [List.map_cons, List.nodup_cons] at hn
        rw [beq_eq_false_iff_ne]
        intro hkeq
        exact hn.1 (hkeq ▸ List.mem_map.mpr ⟨(k, v), h, rfl⟩)
      simp only [List.find?, hk]
      have hn2 : (rest.map Prod.fst).Nodup := by
        simp only [List.map_cons, List.nodup_cons] at hn
        exact hn.2
      exact ih hn2 h

/-- The per-level walk only rewrites its accumulator through
`insertAssoc` at a non-message field (and through `descend`); all
properties preserved by those steps are invariants of the level. -/
theorem getLeafsStep_preserves (env : TypeEnv) (excluded : List Field)
    (P : List (String × Field) → Prop)
    (hP : ∀ acc key f, ¬ f.typ = FieldType.message → P acc →
      P (insertAssoc acc key f))
    (descend : List Field → Message → List (String × Field) →
      Option (List (String × Field)))
    (hdesc : ∀ stack2 sub acc2 r, descend stack2 sub acc2 = some r →
      P acc2 → P r)
    (stack fields : List Field) :
    ∀ acc r, getLeafsStep env excluded descend stack fields acc = some r →
      P acc → P r := by
  induction fields with
  | nil =>
    intro acc r h hacc
    simp only [getLeafsStep, Option.some.injEq] at h
    exact h ▸ hacc
  | cons f rest ih =>
    intro acc r h hacc
    simp only [getLeafsStep] at h
    by_cases htyp : f.typ = FieldType.message
    · rw [if_pos htyp] at h
      by_cases hrep : f.label = FieldLabel.repeated
      · rw [if_pos hrep] at h
        exact ih acc r h hacc
      · rw [if_neg hrep] at h
        by_cases hexc : excluded.contains f = true
        · rw [if_pos hexc] at h
          exact ih acc r h hacc
        · rw [if_neg hexc] at h
          by_cases hstk : stack.contains f = true
          · rw [if_pos hstk] at h
            exact ih acc r h hacc
          · rw [if_neg hstk] at h
            cases hlook : typeLookup env f.typeName with
            | none =>
              rw [hlook] at h
              simp at h
            | some sub =>
              rw [hlook] at h
              simp only [Option.some.injEq] at h
              cases hd : descend (stack ++ [f]) sub acc with
              | none =>
                simp only [hd] at h
                simp at h
              | some acc' =>
                simp only [hd] at h
                exact ih acc' r h (hdesc _ _ _ _ hd hacc)
    · rw [if_neg htyp] at h
      exact ih _ r h (hP acc _ f htyp hacc)

/-- Accumulator invariants lift through the fueled walk. -/
theorem getLeafsD_preserves (env : TypeEnv) (excluded : List Field)
    (P : List (String × Field) → Prop)
    (hP : ∀ acc key f, ¬ f.typ = FieldType.message → P acc →
      P (insertAssoc acc key f)) :
    ∀ fuel stack msg acc r,
      getLeafsD env excluded fuel stack msg acc = some r → P acc → P r := by
  intro fuel
  induction fuel with
  | zero =>
    intro stack msg acc r h hacc
    simp [getLeafsD] at h
  | succ fuel ih =>
    intro stack msg acc r h hacc
    simp only [getLeafsD] at h
    exact getLeafsStep_preserves env excluded P hP _
      (fun stack2 sub acc2 r2 hd => ih stack2 sub acc2 r2 hd)
      stack msg.fields acc r h hacc

/-- Every value of a leaf map produced by the walk is a non-message
field: excluded message fields in particular contribute no entry. -/
theorem getLeafsD_values_nonmessage (env : TypeEnv) (excluded : List Field)
    (fuel : Nat) (stack : List Field) (msg : Message)
    (acc r : List (String × Field))
    (h : getLeafsD env excluded fuel stack msg acc = some r)
    (hacc : ∀ p g, (p, g) ∈ acc → g.typ ≠ FieldType.message) :
    ∀ p g, (p, g) ∈ r → g.typ ≠ FieldType.message := by
  refine getLeafsD_preserves env excluded
    (fun l => ∀ p g, (p, g) ∈ l → g.typ ≠ FieldType.message)
    ?_ fuel stack msg acc r h hacc
  intro acc key f hf hacc p g hm
  rcases mem_insertAssoc hm with hin | hexact
  · exact hacc p g hin
  · cases hexact
    exact hf

/-- The keys of a leaf map produced by the walk are distinct. -/
theorem getLeafsD_keys_nodup (env : TypeEnv) (excluded : List Field)
    (fuel : Nat) (stack : List Field) (msg : Message)
    (acc r : List (String × Field))
    (h : getLeafsD env excluded fuel stack msg acc = some r)
    (hacc : (acc.map Prod.fst).Nodup) : (r.map Prod.fst).Nodup :=
  getLeafsD_preserves env excluded (fun l => (l.map Prod.fst).Nodup)
    (fun _ _ _ _ hl => insertAssoc_keys_nodup hl) fuel stack msg acc r h hacc

theorem mem_allEnvFields {env : TypeEnv} {g : Field} :
    g ∈ allEnvFields env ↔ ∃ p ∈ env, g ∈ p.2.fields := by
  induction env with
  | nil => simp [allEnvFields]
  | cons q rest ih =>
    have hcons : allEnvFields (q :: rest) = q.2.fields ++ allEnvFields rest := rfl
    rw [hcons]
    simp only [List.mem_append, ih, List.mem_cons]
    constructor
    · rintro (h | ⟨p, hp, hg⟩)
      · exact ⟨q, Or.inl rfl, h⟩
      · exact ⟨p, Or.inr hp, hg⟩
    · rintro ⟨p, hp | hp, hg⟩
      · exact Or.inl (hp ▸ hg)
      · exact Or.inr ⟨p, hp, hg⟩

theorem typeLookup_fields_subset (env : TypeEnv) {t : String} {sub : Message}
    (h : typeLookup env t = some sub) :
    ∀ g ∈ sub.fields, g ∈ allEnvFields env := by
  unfold typeLookup at h
  cases hf : env.find? (fun p => p.1 == t) with
  | none =>
    rw [hf] at h
    simp at h
  | some p =>
    rw [hf] at h
    have hps : p.2 = sub := by simpa using h
    intro g hg
    exact mem_allEnvFields.mpr
      ⟨p, List.mem_of_find?_eq_some hf, hps.symm ▸ hg⟩

/-- Processing one message level succeeds whenever every message field
of the level resolves and every admissible descent succeeds. -/
theorem getLeafsStep_total (env : TypeEnv) (excluded : List Field)
    (descend : List Field → Message → List (String × Field) →
      Option (List (String × Field)))
    (stack : List Field) :
    ∀ fields : List Field,
      (∀ f ∈ fields, f.typ = FieldType.message →
        f.label ≠ FieldLabel.repeated → excluded.contains f = false →
        (typeLookup env f.typeName).isSome) →
      (∀ f ∈ fields, ∀ sub acc2, typeLookup env f.typeName = some sub →
        f.typ = FieldType.message → f.label ≠ FieldLabel.repeated →
        excluded.contains f = false → stack.contains f = false →
        ∃ r, descend (stack ++ [f]) sub acc2 = some r) →
      ∀ acc, ∃ r, getLeafsStep env excluded descend stack fields acc = some r := by
  intro fields
  induction fields with
  | nil =>
    intro _ _ acc
    exact ⟨acc, rfl⟩
  | cons f rest ih =>
    intro hres hdesc acc
    have hresR : ∀ g ∈ rest, g.typ = FieldType.message →
        g.label ≠ FieldLabel.repeated → excluded.contains g = false →
        (typeLookup env g.typeName).isSome :=
      fun g hg => hres g (List.mem_cons_of_mem _ hg)
    have hdescR : ∀ g ∈ rest, ∀ sub acc2, typeLookup env g.typeName = some sub →
        g.typ = FieldType.message → g.label ≠ FieldLabel.repeated →
        excluded.contains g = false → stack.contains g = false →
        ∃ r, descend (stack ++ [g]) sub acc2 = some r :=
      fun g hg => hdesc g (List.mem_cons_of_mem _ hg)
    simp only [getLeafsStep]
    by_cases htyp : f.typ = FieldType.message
    · rw [if_pos htyp]
      by_cases hrep : f.label = FieldLabel.repeated
      · rw [if_pos hrep]
        exact ih hresR hdescR acc
      · rw [if_neg hrep]
        by_cases hexc : excluded.contains f = true
        · rw [if_pos hexc]
          exact ih hresR hdescR acc
        · rw [if_neg hexc]
          by_cases hstk : stack.contains f = true
          · rw [if_pos hstk]
            exact ih hresR hdescR acc
          · rw [if_neg hstk]
            have hexcF : excluded.contains f = false := by
              simpa using hexc
            have hstkF : stack.contains f = false := by
              simpa using hstk
            have hsome := hres f (List.mem_cons_self f rest) htyp hrep hexcF
            cases hlook : typeLookup env f.typeName with
            | none =>
              rw [hlook] at hsome
              simp at hsome
            | some sub =>
              obtain ⟨acc', hacc'⟩ := hdesc f (List.mem_cons_self f rest)
                sub acc hlook htyp hrep hexcF hstkF
              show ∃ r,
                (match descend (stack ++ [f]) sub acc with
                  | none => none
                  | some acc2 =>
                    getLeafsStep env excluded descend stack rest acc2) = some r
              rw [hacc']
              exact ih hresR hdescR acc'
    · rw [if_neg htyp]
      exact ih hresR hdescR (insertAssoc acc (leafKey stack f) f)

/-- Termination of the fueled walk: when every reachable message field
resolves in the schema, fuel exceeding the pool of fields (through the
nodup stack bound) guarantees a result. -/
theorem getLeafsD_total (env : TypeEnv) (excluded : List Field)
    (pool : List Field)
    (henv : ∀ t sub, typeLookup env t = some sub → ∀ g ∈ sub.fields, g ∈ pool)
    (hres : ∀ f ∈ pool, f.typ = FieldType.message →
      f.label ≠ FieldLabel.repeated → excluded.contains f = false →
      (typeLookup env f.typeName).isSome) :
    ∀ fuel stack msg acc,
      stack.Nodup → (∀ g ∈ stack, g ∈ pool) → (∀ g ∈ msg.fields, g ∈ pool) →
      pool.length + 1 ≤ fuel + stack.length →
      ∃ r, getLeafsD env excluded fuel stack msg acc = some r := by
  intro fuel
  induction fuel with
  | zero =>
    intro stack msg acc hnd hsub hflds hb
    exfalso
    have hsp : stack.length ≤ pool.length :=
      (hnd.subperm fun g hg => hsub g hg).length_le
    omega
  | succ fuel ih =>
    intro stack msg acc hnd hsub hflds hb
    simp only [getLeafsD]
    apply getLeafsStep_total
    · intro f hf htyp hrep hexc
      exact hres f (hflds f hf) htyp hrep hexc
    · intro f hf sub acc2 hlook htyp hrep hexc hstk
      have hfs : f ∉ stack := by
        simpa using hstk
      apply ih (stack ++ [f]) sub acc2
      · simpa [List.nodup_append] using ⟨hnd, hfs⟩
      · intro g hg
        rcases List.mem_append.mp hg with hg | hg
        · exact hsub g hg
        · have hgf : g = f := List.mem_singleton.mp hg
          exact hgf ▸ hflds f hf
      · exact henv _ _ hlook
      · simp only [List.length_append, List.length_singleton]
        omega

theorem mem_keys_insertAssoc {l : List (String × Field)} {k a : String}
    {v : Field} (h : a ∈ (insertAssoc l k v).map Prod.fst) :
    a ∈ l.map Prod.fst ∨ a = k := by
  rcases List.mem_map.mp h with ⟨x, hx, hxa⟩
  rcases mem_insertAssoc hx with h1 | h1
  · exact Or.inl (hxa ▸ List.mem_map.mpr ⟨x, h1, rfl⟩)
  · right
    rw [← hxa, h1]

theorem pathParams_keys_resolvable (env : TypeEnv) (inputType : String) :
    ∀ (params : List String) (acc : List (String × Field)) (k : String),
      k ∈ ((params.foldl (fun acc param =>
          match lookupField env inputType param with
          | none => acc
          | some field => insertAssoc acc param field) acc).map Prod.fst) →
      k ∈ acc.map Prod.fst ∨ (lookupField env inputType k).isSome := by
  intro params
  induction params with
  | nil =>
    intro acc k h
    exact Or.inl h
  | cons p rest ih =>
    intro acc k h
    rw [List.foldl_cons] at h
    rcases ih _ k h with h1 | h1
    · cases hl : lookupField env inputType p with
      | none =>
        rw [hl] at h1
        exact Or.inl h1
      | some field =>
        rw [hl] at h1
        have h2 : k ∈ (insertAssoc acc p field).map Prod.fst := h1
        rcases mem_keys_insertAssoc h2 with h3 | h3
        · exact Or.inl h3
        · subst h3
          right
          simp [hl]
    · exact Or.inr h1

theorem getHTTPInfo_none {m : Method} (h : m.options = none) :
    getHTTPInfo m = none := by
  unfold getHTTPInfo
  rw [h]

/-- Whether paging detection completed without error (it may still have
found no pagination pair). -/
def pagingOk (m : Method) : Bool :=
  match m.paging with
  | PagingOutcome.err _ => false
  | _ => true

/-! ### The claims -/

/-- Claim C1: for every method the shape classifier selects exactly one
call-synthesis strategy, testing in the fixed order LRO, empty
response, paginated listing, client streaming, server streaming, plain
unary, with first match winning — the classifier agrees with the
spec's ordered first-match list `specClassify` whenever paging
detection does not abort the method; in particular a method that is
both paginated and streaming is classified as paginated. -/
theorem c1_shape_classifier_order (m : Method) (hok : pagingOk m = true) :
    genRESTMethodShape m = Except.ok (specClassify m) ∧
      (m.isLRO = false → m.outputType ≠ emptyType → isPaginated m = true →
        genRESTMethodShape m = Except.ok CallShape.paginated) := by
  constructor
  · unfold genRESTMethodShape specClassify isPaginated pagingOk at *
    by_cases hl : m.isLRO <;>
      by_cases he : m.outputType = emptyType <;>
        cases hp : m.paging <;>
          by_cases hc : m.clientStreaming <;>
            by_cases hs : m.serverStreaming <;>
              simp_all [List.find?] <;>
                (rw [beq_eq_false_iff_ne.mpr he]; simp)
  · intro hl he hpag
    unfold genRESTMethodShape isPaginated at *
    cases hp : m.paging <;> simp_all

/-- Witness for C1 at a method that is both paginated and
server-streaming. -/
theorem c1_shape_classifier_order_witness :
    genRESTMethodShape pagedStreamMethod = Except.ok CallShape.paginated :=
  (c1_shape_classifier_order pagedStreamMethod (by decide)).2
    (by decide) (by decide) (by decide)

/-- Claim C2 counterexample: the URL template `/kingdom/\x7bkingdom\x7d`
has a placeholder that resolves to no field of `IdentifyRequest`
(fields `name`, `mass_kg`), yet the path-parameter classifier returns
the empty mapping and the whole method generates without error — there
is no fatal generation-time error, contrary to the claim. -/
theorem c2_counterexample :
    pathParamsM identifyEnv identifyMethod = [] ∧
      lookupField identifyEnv identifyMethod.inputType "kingdom" = none ∧
      genRESTMethodM identifyEnv identifyMethod =
        Except.ok
          { methodName := "Identify"
            takesRequest := true
            stmts := [Stmt.urlBuild "/kingdom/\x7bkingdom\x7d",
              Stmt.queryAdd "mass_kg" QueryGuard.numNonZero,
              Stmt.queryAdd "name" QueryGuard.numNonZero,
              Stmt.httpCall "GET" false,
              Stmt.respDecode ".identify.IdentifyRequest"] } := by
  refine ⟨by decide, by decide, by decide⟩

/-- Claim C2 amended: a `\x7bplaceholder\x7d` token of the URL template
that does not resolve to a field of the input message is silently
skipped — every key of the path-parameter mapping resolves, so an
unresolvable placeholder is simply omitted, and no error is
signalled. -/
theorem c2_amended (env : TypeEnv) (m : Method) (k : String)
    (h : k ∈ (pathParamsM env m).map Prod.fst) :
    (lookupField env m.inputType k).isSome := by
  unfold pathParamsM at h
  cases hinfo : getHTTPInfo m with
  | none =>
    rw [hinfo] at h
    simp at h
  | some info =>
    rw [hinfo] at h
    rcases pathParams_keys_resolvable env m.inputType
      (findPlaceholders info.url) [] k h with h1 | h1
    · simp at h1
    · exact h1

/-- Witness for the amended C2 at a placeholder that does resolve. -/
theorem c2_amended_witness :
    (lookupField partitionEnv partitionMethod.inputType "foo.bar").isSome :=
  c2_amended partitionEnv partitionMethod "foo.bar" (by decide)

/-- Claim C5 counterexample: with the message-typed field
`mantle.chromatophore` force-excluded, the resolver's mapping for
`Squid` is exactly `length_m`, `mantle.mass_kg` — it contains no entry
for the force-excluded message field, where the claim requires one
(this is the repository's own `excluded_message_test` expectation). -/
theorem c5_counterexample :
    getLeafsM molluscaEnv squidMsg [chromField] =
        some [("length_m", squidLen), ("mantle.mass_kg", mantleMass)] ∧
      ((getLeafsM molluscaEnv squidMsg [chromField]).getD []).find?
        (fun p => p.1 == "mantle.chromatophore") = none := by
  refine ⟨by decide, by decide⟩

/-- Claim C5 amended: for every root message and exclusion set, the
resolver's mapping contains entries only for non-message fields; a
force-excluded message-typed field is skipped entirely — it is neither
descended into nor mapped at its dotted path. -/
theorem c5_amended (env : TypeEnv) (excluded : List Field) (msg : Message)
    (r : List (String × Field)) (h : getLeafsM env msg excluded = some r) :
    ∀ p g, (p, g) ∈ r → g.typ ≠ FieldType.message := by
  unfold getLeafsM at h
  exact getLeafsD_values_nonmessage env excluded _ [] msg [] r h (by simp)

/-- Witness for the amended C5 on the `Squid` fixture. -/
theorem c5_amended_witness : squidLen.typ ≠ FieldType.message :=
  c5_amended molluscaEnv [chromField] squidMsg
    [("length_m", squidLen), ("mantle.mass_kg", mantleMass)]
    (by decide) "length_m" squidLen (by decide)

/-- Claim C9: both streaming-shape synthesizers preserve the method's
signature (its name; the request parameter for the server-streaming
shape, none for the client-streaming shape) and emit exactly the
single unconditional `return nil, fmt.Errorf("... not yet supported
for REST clients")` statement — in particular no transport call is
ever emitted, so every invocation of the generated method returns the
nil result and the unsupported-transport error. -/
theorem c9_streaming_stubs (env : TypeEnv) (m : Method) (out : EmittedFunc) :
    (serverStreamRESTCallM env m = Except.ok out →
      out.methodName = m.name ∧ out.takesRequest = true ∧
        out.stmts = [Stmt.returnUnsupported m.name] ∧
        ∀ v b, Stmt.httpCall v b ∉ out.stmts) ∧
    (noRequestStreamRESTCallM env m = Except.ok out →
      out.methodName = m.name ∧ out.takesRequest = false ∧
        out.stmts = [Stmt.returnUnsupported m.name] ∧
        ∀ v b, Stmt.httpCall v b ∉ out.stmts) := by
  constructor
  · intro h
    unfold serverStreamRESTCallM at h
    cases htl : typeLookup env m.inputType with
    | none =>
      rw [htl] at h
      simp at h
    | some mi =>
      rw [htl] at h
      simp only [Except.ok.injEq] at h
      subst h
      refine ⟨rfl, rfl, rfl, ?_⟩
      intro v b hmem
      simp at hmem
  · intro h
    unfold noRequestStreamRESTCallM at h
    simp only [Except.ok.injEq] at h
    subst h
    refine ⟨rfl, rfl, rfl, ?_⟩
    intro v b hmem
    simp at hmem

/-- The stub the server-streaming synthesizer emits for `BidiThings`. -/
def bidiStub : EmittedFunc :=
  { methodName := "BidiThings"
    takesRequest := true
    stmts := [Stmt.returnUnsupported "BidiThings"] }

/-- Witness for C9 on the server-streaming fixture. -/
theorem c9_streaming_stubs_witness :
    bidiStub.methodName = bidiMethod.name ∧ bidiStub.takesRequest = true ∧
      bidiStub.stmts = [Stmt.returnUnsupported bidiMethod.name] ∧
      ∀ v b, Stmt.httpCall v b ∉ bidiStub.stmts :=
  (c9_streaming_stubs fooEnv bidiMethod bidiStub).1 (by decide)

/-- Claim C10: the classifiers are total at the public interface — with
absent options both parameter classifiers return the empty mapping
with no error signal, a body selector of `*` empties the
query-parameter mapping, and the missing-annotation error surfaces
only in URL synthesis and the per-shape synthesizers. -/
theorem c10_total_classifiers :
    (∀ env m, m.options = none →
      pathParamsM env m = [] ∧ queryParamsM env m = some [] ∧
        generateURLStringM m =
          Except.error ("method has no http info: " ++ m.name) ∧
        unaryRESTCallM env m =
          Except.error ("method has no http info: " ++ m.name) ∧
        emptyUnaryRESTCallM env m =
          Except.error ("method has no http info: " ++ m.name)) ∧
    (∀ env m info, getHTTPInfo m = some info → info.body = "*" →
      queryParamsM env m = some []) := by
  constructor
  · intro env m h
    have hinfo := getHTTPInfo_none h
    refine ⟨?_, ?_, ?_, ?_, ?_⟩
    · unfold pathParamsM
      rw [hinfo]
    · unfold queryParamsM
      rw [hinfo]
    · unfold generateURLStringM
      rw [hinfo]
    · unfold unaryRESTCallM
      rw [hinfo]
    · unfold emptyUnaryRESTCallM
      rw [hinfo]
  · intro env m info hinfo hbody
    unfold queryParamsM
    rw [hinfo]
    simp [hbody]

/-- Witness for C10 at a method without options and at a `*` body. -/
theorem c10_total_classifiers_witness :
    pathParamsM identifyEnv bareMethod = [] ∧
      queryParamsM fooEnv pagingBodyGetMethod = some [] :=
  ⟨(c10_total_classifiers.1 identifyEnv bareMethod rfl).1,
    c10_total_classifiers.2 fooEnv pagingBodyGetMethod
      ⟨"get", "/v1/foo", "*"⟩ (by decide) rfl⟩

/-- The page-fetch body emitted for the paginated GET-with-body
fixture. -/
def pagingGetPlan : EmittedFunc :=
  { methodName := "PagingRPC"
    takesRequest := true
    stmts := [Stmt.bodyMarshal "*", Stmt.urlBuild "/v1/foo",
      Stmt.httpCall "GET" true,
      Stmt.respDecode ".google.cloud.foo.v1.PagedFooResponse"] }

/-- Claim C7 counterexample: a paginated-shape method with verb GET and
the non-empty body selector `*` is generated without any error, and
its body-marshal statement is silently emitted — the paginated
synthesizer performs no body/verb check, contrary to the claim. -/
theorem c7_counterexample :
    genRESTMethodShape pagingBodyGetMethod = Except.ok CallShape.paginated ∧
      genRESTMethodM fooEnv pagingBodyGetMethod = Except.ok pagingGetPlan ∧
      Stmt.bodyMarshal "*" ∈ pagingGetPlan.stmts := by
  refine ⟨by decide, by decide, by decide⟩

/-- Claim C7 amended: the GET/DELETE body rejection is applied by the
plain-unary and empty-response synthesizers only, which fail with an
error naming the method; the paginated synthesizer emits the body
marshal with no verb check whenever it succeeds, and the
long-running-operation synthesizer emits only its stub (no body, no
transport call) regardless of verb and body. -/
theorem c7_body_verb_rejection (env : TypeEnv) (m : Method) (info : HttpInfo)
    (hinfo : getHTTPInfo m = some info) (hbody : info.body ≠ "")
    (hverb : toUpperStr info.verb = "GET" ∨ toUpperStr info.verb = "DELETE") :
    (∀ mi mo, typeLookup env m.inputType = some mi →
      typeLookup env m.outputType = some mo →
      unaryRESTCallM env m = Except.error
        ("invalid use of body parameter for a get/delete method \"" ++
          m.name ++ "\"")) ∧
    (∀ mi, typeLookup env m.inputType = some mi →
      emptyUnaryRESTCallM env m = Except.error
        ("invalid use of body parameter for a get/delete method \"" ++
          m.name ++ "\"")) ∧
    (∀ out, pagingRESTCallM env m = Except.ok out →
      Stmt.bodyMarshal info.body ∈ out.stmts) ∧
    (∀ mi, typeLookup env m.inputType = some mi →
      lroRESTCallM env m = Except.ok
        { methodName := m.name
          takesRequest := true
          stmts := [Stmt.returnUnsupported m.name] }) := by
  refine ⟨?_, ?_, ?_, ?_⟩
  · intro mi mo hmi hmo
    simp only [unaryRESTCallM, hinfo, hmi, hmo]
    rw [if_pos ⟨hbody, hverb⟩]
  · intro mi hmi
    simp only [emptyUnaryRESTCallM, hinfo, hmi]
    rw [if_pos ⟨hbody, hverb⟩]
  · intro out hok
    unfold pagingRESTCallM at hok
    cases hmi : typeLookup env m.inputType with
    | none =>
      rw [hmi] at hok
      simp at hok
    | some mi =>
      cases hmo : typeLookup env m.outputType with
      | none =>
        rw [hmi, hmo] at hok
        simp at hok
      | some mo =>
        rw [hmi, hmo] at hok
        simp only [hinfo] at hok
        rw [if_pos hbody] at hok
        cases hq : generateQueryStringM env m with
        | none =>
          rw [hq] at hok
          simp at hok
        | some qs =>
          rw [hq] at hok
          simp only [Except.ok.injEq] at hok
          subst hok
          simp
  · intro mi hmi
    simp only [lroRESTCallM, hmi]

/-- Witness for the amended C7 at the paginated GET-with-body
fixture. -/
theorem c7_body_verb_rejection_witness :
    Stmt.bodyMarshal "*" ∈ pagingGetPlan.stmts :=
  (c7_body_verb_rejection fooEnv pagingBodyGetMethod
      ⟨"get", "/v1/foo", "*"⟩ (by decide) (by decide)
      (Or.inl (by decide))).2.2.1 pagingGetPlan (by decide)

/-- Unfolding of the query-parameter classifier in the interesting
case: HTTP information present, body selector other than `*`, input
type resolvable, leaf walk successful. -/
theorem queryParamsM_eq (env : TypeEnv) (m : Method) (info : HttpInfo)
    (request : Message) (leaves : List (String × Field))
    (hinfo : getHTTPInfo m = some info) (hbody : info.body ≠ "*")
    (hreq : typeLookup env m.inputType = some request)
    (hleaves : getLeafsM env request
      ((lookupField env m.inputType info.body).toList) = some leaves) :
    queryParamsM env m = some (leaves.filter (fun pf =>
      !(((pathParamsM env m).map Prod.fst ++ [info.body]).contains pf.1) &&
        (lookupField env request.name pf.2.name).isNone)) := by
  unfold queryParamsM
  simp only [hinfo]
  rw [if_neg hbody]
  simp only [hreq, hleaves]

/-- The keys of the query-parameter mapping are distinct. -/
theorem queryParamsM_keys_nodup (env : TypeEnv) (m : Method)
    (qp : List (String × Field)) (h : queryParamsM env m = some qp) :
    (qp.map Prod.fst).Nodup := by
  unfold queryParamsM at h
  cases hinfo : getHTTPInfo m with
  | none =>
    rw [hinfo] at h
    simp only [Option.some.injEq] at h
    subst h
    simp
  | some info =>
    simp only [hinfo] at h
    by_cases hbody : info.body = "*"
    · rw [if_pos hbody] at h
      simp only [Option.some.injEq] at h
      subst h
      simp
    · rw [if_neg hbody] at h
      cases hreq : typeLookup env m.inputType with
      | none =>
        simp only [hreq] at h
        simp at h
      | some request =>
        simp only [hreq] at h
        cases hleaves : getLeafsM env request
            ((lookupField env m.inputType info.body).toList) with
        | none =>
          simp only [hleaves] at h
          simp at h
        | some leaves =>
          simp only [hleaves, Option.some.injEq] at h
          subst h
          have hnd : (leaves.map Prod.fst).Nodup := by
            unfold getLeafsM at hleaves
            exact getLeafsD_keys_nodup env _ _ [] request [] leaves hleaves
              (by simp)
          exact hnd.sublist (List.Sublist.map Prod.fst (List.filter_sublist _))

/-- Claim C3: for every candidate query-parameter field the synthesized
query string applies exactly the spec's guard policy (§4.4, embodied
in `specGuardPolicy`): required singular scalar/enum fields are added
unconditionally; otherwise repeated fields under the collection guard;
otherwise proto3-optional fields under the presence guard; otherwise a
type-appropriate zero-value guard (empty string, falsy boolean,
non-nil message/bytes, non-zero numeric/enum). -/
theorem c3_query_guard_policy (env : TypeEnv) (m : Method)
    (qp : List (String × Field)) (out : List (String × QueryGuard))
    (hqp : queryParamsM env m = some qp)
    (hout : generateQueryStringM env m = some out) :
    (∀ p f, (p, f) ∈ qp → (p, specGuardPolicy f) ∈ out) ∧
      (∀ p g, (p, g) ∈ out → ∃ f, (p, f) ∈ qp ∧ g = specGuardPolicy f) := by
  have hnd := queryParamsM_keys_nodup env m qp hqp
  unfold generateQueryStringM at hout
  simp only [hqp] at hout
  by_cases hlen : qp.length = 0
  · rw [if_pos hlen] at hout
    simp only [Option.some.injEq] at hout
    subst hout
    have hqpnil : qp = [] := List.length_eq_zero.mp hlen
    subst hqpnil
    constructor
    · intro p f hf
      simp at hf
    · intro p g hg
      simp at hg
  · rw [if_neg hlen] at hout
    simp only [Option.some.injEq] at hout
    subst hout
    constructor
    · intro p f hf
      have hkey : p ∈ qp.map Prod.fst := List.mem_map.mpr ⟨(p, f), hf, rfl⟩
      have hsorted : p ∈ sortStrings (qp.map Prod.fst) :=
        ((List.perm_insertionSort strLeR (qp.map Prod.fst)).mem_iff).mpr hkey
      refine List.mem_map.mpr ⟨p, hsorted, ?_⟩
      rw [find?_eq_of_mem_of_nodup hnd hf]
      simp [guardFor_eq_specGuardPolicy]
    · intro p g hg
      rcases List.mem_map.mp hg with ⟨path, hpath, he⟩
      have hp : path = p := congrArg Prod.fst he
      subst hp
      have hkey : path ∈ qp.map Prod.fst :=
        ((List.perm_insertionSort strLeR (qp.map Prod.fst)).mem_iff).mp hpath
      rcases List.mem_map.mp hkey with ⟨pf, hpf, hpf1⟩
      have hpfe : pf = (path, pf.2) := by
        rw [← hpf1]
      rw [hpfe] at hpf
      refine ⟨pf.2, hpf, ?_⟩
      have hg2 : g = guardFor (((qp.find? (fun q => q.1 == path)).map
          (fun q => q.2)).getD defaultField) := (congrArg Prod.snd he).symm
      rw [find?_eq_of_mem_of_nodup hnd hpf] at hg2
      simpa [guardFor_eq_specGuardPolicy] using hg2

/-- Witness for C3 on the identify fixture (two int32 query
parameters, both under the non-zero guard). -/
theorem c3_query_guard_policy_witness :
    ("mass_kg", specGuardPolicy idMass) ∈
      [("mass_kg", QueryGuard.numNonZero), ("name", QueryGuard.numNonZero)] :=
  (c3_query_guard_policy identifyEnv identifyMethod
      [("name", idName), ("mass_kg", idMass)]
      [("mass_kg", QueryGuard.numNonZero), ("name", QueryGuard.numNonZero)]
      (by decide) (by decide)).1 "mass_kg" idMass (by decide)

/-- Claim C8: the synthesized query-string construction emits the
parameter fields in ascending lexicographic order of dotted field path
(`strLeR`, the order of `sort.Strings`), and — the synthesis being a
function of the schema — two generations over the same input produce
the identical sequence. -/
theorem c8_query_order (env : TypeEnv) (m : Method)
    (out : List (String × QueryGuard))
    (h : generateQueryStringM env m = some out) :
    List.Sorted strLeR (out.map Prod.fst) ∧
      (∀ out2, generateQueryStringM env m = some out2 → out2 = out) := by
  refine ⟨?_, ?_⟩
  · unfold generateQueryStringM at h
    cases hqp : queryParamsM env m with
    | none =>
      simp only [hqp] at h
      simp at h
    | some qp =>
      simp only [hqp] at h
      by_cases hlen : qp.length = 0
      · rw [if_pos hlen] at h
        simp only [Option.some.injEq] at h
        subst h
        simp
      · rw [if_neg hlen] at h
        simp only [Option.some.injEq] at h
        subst h
        have hmapfst : ((sortStrings (qp.map Prod.fst)).map (fun path =>
            (path, guardFor (((qp.find? (fun q => q.1 == path)).map
              (fun q => q.2)).getD defaultField)))).map Prod.fst =
            sortStrings (qp.map Prod.fst) := by
          rw [List.map_map]
          have hco : (Prod.fst ∘ fun path =>
              (path, guardFor (((qp.find? (fun q => q.1 == path)).map
                (fun q => q.2)).getD defaultField))) = id := rfl
          rw [hco, List.map_id]
        rw [hmapfst]
        exact List.sorted_insertionSort strLeR (qp.map Prod.fst)
  · intro out2 h2
    rw [h] at h2
    exact (Option.some.injEq _ _ ▸ h2).symm

/-- Witness for C8 on the identify fixture (keys `mass_kg`, `name`
emitted in sorted order). -/
theorem c8_query_order_witness :
    List.Sorted strLeR
      ([("mass_kg", QueryGuard.numNonZero),
        ("name", QueryGuard.numNonZero)].map Prod.fst) :=
  (c8_query_order identifyEnv identifyMethod
      [("mass_kg", QueryGuard.numNonZero), ("name", QueryGuard.numNonZero)]
      (by decide)).1

/-- The body-subtree paths of the claim (spec §8): the leaf paths of
the full input message (no exclusions) lying at the body selector path
or strictly below it. -/
def bodySubtreePaths (env : TypeEnv) (request : Message) (body : String) :
    List String :=
  match getLeafsM env request [] with
  | none => []
  | some leaves =>
    (leaves.map Prod.fst).filter
      (fun p => p == body || (body ++ ".").data.isPrefixOf p.data)

/-- Claim C4 counterexample: for the method with URL template
`/v1/\x7bfoo.bar\x7d` and body selector `foo`, the path-parameter path
`foo.bar` lies inside the body subtree — path-parameter paths and
body-subtree paths are not pairwise disjoint, contrary to the claim. -/
theorem c4_counterexample :
    "foo.bar" ∈ (pathParamsM partitionEnv partitionMethod).map Prod.fst ∧
      "foo.bar" ∈ bodySubtreePaths partitionEnv reqMsg "foo" ∧
      getHTTPInfo partitionMethod =
        some ⟨"post", "/v1/\x7bfoo.bar\x7d", "foo"⟩ := by
  refine ⟨by decide, by decide, by decide⟩

/-- The `path_query_param_mix` fixture of `TestQueryParams`: fields
`kingdom`, `phylum`, `mass_kg`, `guess`; two path parameters; body
selector `guess`. -/
def qmixKingdom : Field := intField 3 "kingdom"

def qmixPhylum : Field := intField 4 "phylum"

def qmixMass : Field := intField 5 "mass_kg"

def qmixGuess : Field := intField 6 "guess"

def qmixMsg : Message :=
  ⟨"IdentifyRequest", [qmixKingdom, qmixPhylum, qmixMass, qmixGuess]⟩

def qmixEnv : TypeEnv := [(".identify.QmixRequest", qmixMsg)]

def qmixMethod : Method :=
  { name := "Identify"
    inputType := ".identify.QmixRequest"
    outputType := ".identify.QmixRequest"
    options := mkHttpOpts
      (HttpPattern.get "/kingdom/\x7bkingdom\x7d/phylum/\x7bphylum\x7d")
      "guess" }

/-- Claim C4 amended: the query-parameter paths are disjoint from the
path-parameter paths and from the body selector path (so in
particular from the body root), query parameters are drawn from the
leaf set computed with the body field force-excluded, and that leaf
set is covered: each of its members is a path parameter, the body
selector path, a root-shadowed leaf, or a query parameter.
Path-parameter paths, however, are not guaranteed disjoint from the
body subtree (see the counterexample), so the full pairwise
disjointness of the claim does not hold. -/
theorem c4_partition (env : TypeEnv) (m : Method) (info : HttpInfo)
    (request : Message) (leaves qp : List (String × Field))
    (hinfo : getHTTPInfo m = some info) (hbody : info.body ≠ "*")
    (hreq : typeLookup env m.inputType = some request)
    (hleaves : getLeafsM env request
      ((lookupField env m.inputType info.body).toList) = some leaves)
    (hqp : queryParamsM env m = some qp) :
    (∀ p, p ∈ qp.map Prod.fst →
      p ∉ (pathParamsM env m).map Prod.fst ∧ p ≠ info.body) ∧
      (∀ pf, pf ∈ qp → pf ∈ leaves) ∧
      (∀ pf : String × Field, pf ∈ leaves →
        pf.1 ∈ (pathParamsM env m).map Prod.fst ∨ pf.1 = info.body ∨
          (lookupField env request.name pf.2.name).isSome ∨ pf ∈ qp) := by
  have heq := queryParamsM_eq env m info request leaves hinfo hbody hreq hleaves
  rw [hqp] at heq
  have hqpe : qp = leaves.filter (fun pf =>
      !(((pathParamsM env m).map Prod.fst ++ [info.body]).contains pf.1) &&
        (lookupField env request.name pf.2.name).isNone) :=
    (Option.some.injEq _ _ ▸ heq)
  refine ⟨?_, ?_, ?_⟩
  · intro p hp
    rcases List.mem_map.mp hp with ⟨pf, hpf, hpfe⟩
    rw [hqpe] at hpf
    have hcond := List.of_mem_filter hpf
    simp only [Bool.and_eq_true, Bool.not_eq_true'] at hcond
    have hnc : (((pathParamsM env m).map Prod.fst ++ [info.body]).contains
        pf.1) = false := hcond.1
    rw [← hpfe]
    constructor
    · intro hmem
      have hel : (((pathParamsM env m).map Prod.fst ++
          [info.body]).contains pf.1) = true :=
        List.elem_iff.mpr (List.mem_append.mpr (Or.inl hmem))
      rw [hnc] at hel
      exact Bool.false_ne_true hel
    · intro hbe
      have hel : (((pathParamsM env m).map Prod.fst ++
          [info.body]).contains pf.1) = true :=
        List.elem_iff.mpr (List.mem_append.mpr (Or.inr (by simp [hbe])))
      rw [hnc] at hel
      exact Bool.false_ne_true hel
  · intro pf hpf
    rw [hqpe] at hpf
    exact List.mem_of_mem_filter hpf
  · intro pf hpf
    by_cases hcond : (!(((pathParamsM env m).map Prod.fst ++
        [info.body]).contains pf.1) &&
        (lookupField env request.name pf.2.name).isNone) = true
    · right
      right
      right
      rw [hqpe]
      exact List.mem_filter.mpr ⟨hpf, hcond⟩
    · simp only [Bool.and_eq_true, Bool.not_eq_true', not_and_or] at hcond
      rcases hcond with hc | hc
      · have hc2 : (((pathParamsM env m).map Prod.fst ++
            [info.body]).contains pf.1) = true := by
          rcases Bool.eq_false_or_eq_true
            ((((pathParamsM env m).map Prod.fst ++
              [info.body]).contains pf.1)) with hcb | hcb
          · exact hcb
          · exact absurd hcb hc
        have hmem : pf.1 ∈ (pathParamsM env m).map Prod.fst ++ [info.body] :=
          List.elem_iff.mp hc2
        rcases List.mem_append.mp hmem with hm | hm
        · exact Or.inl hm
        · right
          left
          simpa using hm
      · right
        right
        left
        have hn : (lookupField env request.name pf.2.name).isNone = false := by
          rcases Bool.eq_false_or_eq_true
            ((lookupField env request.name pf.2.name).isNone) with hcb | hcb
          · exact absurd hcb hc
          · exact hcb
        cases hl : lookupField env request.name pf.2.name with
        | none =>
          rw [hl] at hn
          simp at hn
        | some f2 => simp

/-- Witness for the amended C4 on the path/query/body mix fixture
(`path_query_param_mix` of `TestQueryParams`). -/
theorem c4_partition_witness :
    "mass_kg" ∉ (pathParamsM qmixEnv qmixMethod).map Prod.fst ∧
      "mass_kg" ≠ "guess" :=
  (c4_partition qmixEnv qmixMethod
      ⟨"get", "/kingdom/\x7bkingdom\x7d/phylum/\x7bphylum\x7d", "guess"⟩
      qmixMsg
      [("kingdom", qmixKingdom), ("phylum", qmixPhylum),
        ("mass_kg", qmixMass), ("guess", qmixGuess)]
      [("mass_kg", qmixMass)]
      (by decide) (by decide) (by decide) (by decide) (by decide)).1
    "mass_kg" (by decide)

/-- Claim C6: leaf-field resolution terminates on every finite message
graph whose reachable message-typed fields resolve in the schema (the
§3 schema invariant), including self-referential ones — the fuel
bound used by `getLeafsM` always suffices; a message-typed field
already on the current path-from-root is skipped, contributing no
leaf and no failure; on the self-referential `Whelk` fixture the
resolution yields exactly `mass_kg` and `whelk.mass_kg` (the cyclic
edge adds nothing further), and on the diamond fixture the message
`S`, reached through two distinct non-cyclic paths, is fully explored
on each path. -/
theorem c6_termination (env : TypeEnv) (excluded : List Field) (msg : Message)
    (hres : ∀ f ∈ fieldPool env msg, f.typ = FieldType.message →
      f.label ≠ FieldLabel.repeated → excluded.contains f = false →
      (typeLookup env f.typeName).isSome) :
    (∃ r, getLeafsM env msg excluded = some r) ∧
      (∀ descend stack f rest acc, f.typ = FieldType.message →
        f.label ≠ FieldLabel.repeated → excluded.contains f = false →
        stack.contains f = true →
        getLeafsStep env excluded descend stack (f :: rest) acc =
          getLeafsStep env excluded descend stack rest acc) ∧
      getLeafsM molluscaEnv whelkMsg [] =
        some [("mass_kg", whelkMass), ("whelk.mass_kg", whelkMass)] ∧
      getLeafsM diamondEnv dMsg [] = some [("a.x", leafX), ("b.x", leafX)] := by
  refine ⟨?_, ?_, by decide, by decide⟩
  · unfold getLeafsM
    apply getLeafsD_total env excluded (fieldPool env msg)
    · intro t sub hlook g hg
      unfold fieldPool
      exact List.mem_append.mpr
        (Or.inr (typeLookup_fields_subset env hlook g hg))
    · exact hres
    · exact List.nodup_nil
    · intro g hg
      simp at hg
    · intro g hg
      unfold fieldPool
      exact List.mem_append.mpr (Or.inl hg)
    · simp
  · intro descend stack f rest acc htyp hrep hexc hstk
    simp only [getLeafsStep]
    rw [if_pos htyp, if_neg hrep]
    have hexcn : ¬ excluded.contains f = true := by
      intro hcon
      rw [hexc] at hcon
      exact Bool.false_ne_true hcon
    rw [if_neg hexcn, if_pos hstk]

/-- Witness for C6: termination on the self-referential `Whelk`
schema. -/
theorem c6_termination_witness :
    ∃ r, getLeafsM molluscaEnv whelkMsg [] = some r :=
  (c6_termination molluscaEnv [] whelkMsg (by decide)).1

end Gapic
